import Mathlib

/-!
# Verification of the Airbnb host-finder discovery pipeline

Shallow embedding of `src/airbnb/hosts-finder.ts` (grid/price decomposition,
capped-search pagination, global dedup, host resolution with credential
recovery, geographic resolution).  JavaScript numbers are modelled as `ℚ`,
counts as `ℕ`, JSON-ish optional fields as `Option`, and the JS `Set` of ids
as `Finset String`.
-/

namespace HostsFinder

/-- A price band `{min, max}` as built by `createPricePivotingRanges`. -/
structure PriceRange where
  min : ℚ
  max : ℚ
deriving DecidableEq, Repr

/-- The loop body of `createPricePivotingRanges` (hosts-finder.ts lines
199-207): push the current `{pivotStart, pivotEnd}`, advance both by
`intervalSize`, and break once the advanced `pivotEnd` exceeds `max`.
The first argument is the remaining iteration count of the `for` loop. -/
def pricePivotLoop (intervalSize maxPrice : ℚ) : ℕ → ℚ → ℚ → List PriceRange
  | 0, _, _ => []
  | n + 1, pivotStart, pivotEnd =>
    let r : PriceRange := ⟨pivotStart, pivotEnd⟩
    let pivotStart' := pivotStart + intervalSize
    let pivotEnd' := pivotEnd + intervalSize
    if maxPrice < pivotEnd' then [r]
    else r :: pricePivotLoop intervalSize maxPrice n pivotStart' pivotEnd'

/-- The function `createPricePivotingRanges` with the histogram bucket count as an explicit
parameter (the source hardcodes `HISTOGRAM_ITEMS_COUNT = 10`):
`intervalSize = max / count`, starting band `[min, intervalSize + min]`. -/
def createPricePivotingRangesGen (count : ℕ) (min max : ℚ) : List PriceRange :=
  let intervalSize := max / count
  pricePivotLoop intervalSize max count min (intervalSize + min)

/-- The constant `HISTOGRAM_ITEMS_COUNT` (hosts-finder.ts line 192). -/
def HISTOGRAM_ITEMS_COUNT : ℕ := 10

/-- The source's `createPricePivotingRanges` (hosts-finder.ts lines 191-210). -/
def createPricePivotingRanges (min max : ℚ) : List PriceRange :=
  createPricePivotingRangesGen HISTOGRAM_ITEMS_COUNT min max

/-- Mapping over `List.range (n+1)` peels off the head. -/
theorem range_map_cons {α : Type} (n : ℕ) (f : ℕ → α) :
    (List.range (n + 1)).map f = f 0 :: (List.range n).map (f ∘ Nat.succ) := by
  rw [List.range_succ_eq_map, List.map_cons, List.map_map]

/-- With exact arithmetic the loop never breaks early: starting at band `j`
of `n` remaining bands of width `s` toward ceiling `N * s`, it produces the
bands `[(j+i)·s, (j+i+1)·s]` for `i < n`. -/
theorem pricePivotLoop_eq (s : ℚ) (hs : 0 < s) (N : ℕ) :
    ∀ n j, j + n = N → 1 ≤ n →
      pricePivotLoop s ((N : ℚ) * s) n ((j : ℚ) * s) (((j : ℚ) + 1) * s) =
        (List.range n).map
          (fun i => ⟨((j + i : ℕ) : ℚ) * s, ((j + i + 1 : ℕ) : ℚ) * s⟩) := by
  intro n
  induction n with
  | zero => intro j _ h1; omega
  | succ k ih =>
    intro j hjk _
    match k, ih with
    | 0, _ =>
      simp only [pricePivotLoop]
      split <;> simp [List.range_succ]
    | k + 1, ih =>
      have hjN : j + 2 ≤ N := by omega
      have hnotbreak : ¬ ((N : ℚ) * s < ((j : ℚ) + 1) * s + s) := by
        have h2 : ((j : ℚ) + 1) * s + s = ((j : ℚ) + 2) * s := by ring
        rw [h2, not_lt]
        have hle : ((j : ℚ) + 2) ≤ (N : ℚ) := by exact_mod_cast hjN
        exact mul_le_mul_of_nonneg_right hle hs.le
      rw [pricePivotLoop]
      simp only [hnotbreak, if_false]
      have hstart : ((j : ℚ)) * s + s = (((j + 1 : ℕ) : ℚ)) * s := by
        push_cast; ring
      have hend : ((j : ℚ) + 1) * s + s = (((j + 1 : ℕ) : ℚ) + 1) * s := by
        push_cast; ring
      rw [hstart, hend, ih (j + 1) (by omega) (by omega)]
      conv_rhs => rw [range_map_cons]
      congr 1
      · simp
      · apply List.map_congr_left
        intro i _
        simp only [Function.comp_apply]
        have e1 : j + 1 + i = j + (i + 1) := by omega
        rw [e1]

/-- Closed form of the generated bands for lower bound `0`, ceiling `C > 0`
and bucket count `N ≥ 1`: exactly the `N` bands `[i·(C/N), (i+1)·(C/N)]`. -/
theorem createPricePivotingRangesGen_eq (N : ℕ) (C : ℚ) (hN : 1 ≤ N) (hC : 0 < C) :
    createPricePivotingRangesGen N 0 C =
      (List.range N).map
        (fun i => ⟨((i : ℕ) : ℚ) * (C / N), ((i + 1 : ℕ) : ℚ) * (C / N)⟩) := by
  have hNQ : (0 : ℚ) < (N : ℚ) := by
    have : (0 : ℕ) < N := hN
    exact_mod_cast this
  have hs : 0 < C / (N : ℚ) := div_pos hC hNQ
  have hC' : (N : ℚ) * (C / N) = C := by
    field_simp
  have key := pricePivotLoop_eq (C / N) hs N N 0 (by omega) hN
  rw [hC'] at key
  simp only [Nat.cast_zero, zero_mul, zero_add, one_mul] at key
  show pricePivotLoop (C / (N : ℚ)) C N 0 (C / (N : ℚ) + 0) = _
  rw [add_zero, key]

/-- The entry of the band list at a valid index, in closed form. -/
theorem bands_getElem? (N : ℕ) (C : ℚ) (hN : 1 ≤ N) (hC : 0 < C) (i : ℕ) (hi : i < N) :
    (createPricePivotingRangesGen N 0 C)[i]? =
      some ⟨((i : ℕ) : ℚ) * (C / N), ((i + 1 : ℕ) : ℚ) * (C / N)⟩ := by
  rw [createPricePivotingRangesGen_eq N C hN hC, List.getElem?_map, List.getElem?_range hi]
  rfl

/-- Any point of `[0, (m+1)·s]` lies in one of the width-`s` bands
`[i·s, (i+1)·s]` for some `i ≤ m`. -/
theorem exists_band_index (s : ℚ) (x : ℚ) :
    ∀ m : ℕ, 0 ≤ x → x ≤ ((m : ℚ) + 1) * s → ∃ i, i ≤ m ∧ ((i : ℕ) : ℚ) * s ≤ x ∧ x ≤ ((i : ℚ) + 1) * s := by
  intro m
  induction m with
  | zero =>
    intro hx0 hx1
    refine ⟨0, le_refl 0, by simpa using hx0, by simpa using hx1⟩
  | succ m ih =>
    intro hx0 hx1
    by_cases h : x ≤ ((m : ℚ) + 1) * s
    · obtain ⟨i, him, h1, h2⟩ := ih hx0 h
      exact ⟨i, by omega, h1, h2⟩
    · push_neg at h
      refine ⟨m + 1, le_refl _, ?_, ?_⟩
      · push_cast
        exact h.le
      · push_cast
        push_cast at hx1
        linarith

/-- The partition property the specification asserts of the price bands for
ceiling `C` and band count `N`: `N` bands whose union is `[0, C]`,
consecutive bands sharing exactly one boundary value, any two bands
overlapping in at most a shared boundary point, and no band exceeding `C`. -/
def PriceBandPartition (bands : List PriceRange) (C : ℚ) (N : ℕ) : Prop :=
  bands.length = N ∧
  (∀ x : ℚ, (∃ b ∈ bands, b.min ≤ x ∧ x ≤ b.max) ↔ (0 ≤ x ∧ x ≤ C)) ∧
  (∀ i : ℕ, i + 1 < N →
    ∃ b₁ b₂, bands[i]? = some b₁ ∧ bands[i + 1]? = some b₂ ∧ b₁.max = b₂.min) ∧
  (∀ i j : ℕ, ∀ bi bj : PriceRange, i < j → bands[i]? = some bi → bands[j]? = some bj →
    ∀ x : ℚ, bi.min ≤ x → x ≤ bi.max → bj.min ≤ x → x ≤ bj.max →
      j = i + 1 ∧ x = bi.max) ∧
  (∀ b ∈ bands, b.max ≤ C)

/-- C2: For every ceiling `C > 0` and band count `N ≥ 1`, with lower bound 0,
`createPricePivotingRanges`' band list is a partition of `[0, C]`: its union
equals `[0, C]`, each consecutive pair shares exactly one boundary value, no
two bands overlap beyond shared boundaries, and no band's max exceeds `C`. -/
theorem createPricePivotingRanges_partition (N : ℕ) (C : ℚ) (hN : 1 ≤ N) (hC : 0 < C) :
    PriceBandPartition (createPricePivotingRangesGen N 0 C) C N := by
  have hNQ : (0 : ℚ) < (N : ℚ) := by
    have h0 : (0 : ℕ) < N := hN
    exact_mod_cast h0
  set s : ℚ := C / N with hs_def
  have hs : 0 < s := div_pos hC hNQ
  have hNs : (N : ℚ) * s = C := by
    rw [hs_def]; field_simp
  have hform := createPricePivotingRangesGen_eq N C hN hC
  refine ⟨?_, ?_, ?_, ?_, ?_⟩
  · rw [hform]; simp
  · -- union of the bands is exactly [0, C]
    intro x
    constructor
    · rintro ⟨b, hb, hbx1, hbx2⟩
      rw [hform, List.mem_map] at hb
      obtain ⟨i, hi, rfl⟩ := hb
      rw [List.mem_range] at hi
      constructor
      · have h0 : (0 : ℚ) ≤ ((i : ℕ) : ℚ) * s := by positivity
        exact le_trans h0 hbx1
      · have hiN : ((i + 1 : ℕ) : ℚ) ≤ (N : ℚ) := by exact_mod_cast hi
        have h1 : ((i + 1 : ℕ) : ℚ) * s ≤ (N : ℚ) * s :=
          mul_le_mul_of_nonneg_right hiN hs.le
        calc x ≤ ((i + 1 : ℕ) : ℚ) * s := hbx2
          _ ≤ (N : ℚ) * s := h1
          _ = C := hNs
    · rintro ⟨hx0, hxC⟩
      have hxN : x ≤ (((N - 1 : ℕ) : ℚ) + 1) * s := by
        have hcast : (((N - 1 : ℕ) : ℚ) + 1) = (N : ℚ) := by
          have h1 : N - 1 + 1 = N := by omega
          exact_mod_cast congrArg (Nat.cast : ℕ → ℚ) h1
        rw [hcast, hNs]
        exact hxC
      obtain ⟨i, him, h1, h2⟩ := exists_band_index s x (N - 1) hx0 hxN
      refine ⟨⟨((i : ℕ) : ℚ) * s, ((i + 1 : ℕ) : ℚ) * s⟩, ?_, h1, ?_⟩
      · rw [hform, List.mem_map]
        exact ⟨i, List.mem_range.mpr (by omega), rfl⟩
      · show x ≤ ((i + 1 : ℕ) : ℚ) * s
        push_cast
        exact h2
  · -- consecutive bands share their boundary
    intro i hi
    refine ⟨_, _, bands_getElem? N C hN hC i (by omega),
      bands_getElem? N C hN hC (i + 1) (by omega), ?_⟩
    show ((i + 1 : ℕ) : ℚ) * s = ((i + 1 : ℕ) : ℚ) * s
    rfl
  · -- no overlap beyond a shared boundary point
    intro i j bi bj hij hbi hbj x h1 h2 h3 h4
    have hlen : (createPricePivotingRangesGen N 0 C).length = N := by
      rw [hform]; simp
    have hiN : i < N := by
      obtain ⟨hlt, _⟩ := List.getElem?_eq_some_iff.mp hbi
      rwa [hlen] at hlt
    have hjN : j < N := by
      obtain ⟨hlt, _⟩ := List.getElem?_eq_some_iff.mp hbj
      rwa [hlen] at hlt
    rw [bands_getElem? N C hN hC i hiN] at hbi
    rw [bands_getElem? N C hN hC j hjN] at hbj
    obtain rfl := Option.some_injective _ hbi
    obtain rfl := Option.some_injective _ hbj
    simp only at h1 h2 h3 h4
    -- j·s ≤ x ≤ (i+1)·s forces j ≤ i+1, hence j = i+1 and x = (i+1)·s
    have hjs : ((j : ℕ) : ℚ) * s ≤ ((i + 1 : ℕ) : ℚ) * s := le_trans h3 h2
    have hji : (j : ℕ) ≤ i + 1 := by
      by_contra hgt
      push_neg at hgt
      have : ((i + 1 : ℕ) : ℚ) < ((j : ℕ) : ℚ) := by exact_mod_cast hgt
      have hlt : ((i + 1 : ℕ) : ℚ) * s < ((j : ℕ) : ℚ) * s :=
        mul_lt_mul_of_pos_right this hs
      linarith
    have hj_eq : j = i + 1 := by omega
    subst hj_eq
    exact ⟨rfl, le_antisymm h2 h3⟩
  · -- every band stays below the ceiling
    intro b hb
    rw [hform, List.mem_map] at hb
    obtain ⟨i, hi, rfl⟩ := hb
    rw [List.mem_range] at hi
    show ((i + 1 : ℕ) : ℚ) * s ≤ C
    have hiN : ((i + 1 : ℕ) : ℚ) ≤ (N : ℚ) := by exact_mod_cast hi
    calc ((i + 1 : ℕ) : ℚ) * s ≤ (N : ℚ) * s := mul_le_mul_of_nonneg_right hiN hs.le
      _ = C := hNs

/-- C2 witness: the partition property at the source's default configuration,
ceiling 1,000,000 split into 10 bands. -/
theorem createPricePivotingRanges_partition_witness :
    PriceBandPartition (createPricePivotingRangesGen 10 0 1000000) 1000000 10 :=
  createPricePivotingRanges_partition 10 1000000 (by norm_num) (by norm_num)

/-! ## Search query construction (hosts-finder.ts lines 297-309) -/

/-- The price parameters the search URL carries for a band: `price_min` is
always set to the band's min; `price_max` is set only when
`range.max < 1000` (hosts-finder.ts lines 308-309). -/
structure SearchQueryPriceParams where
  price_min : ℚ
  price_max : Option ℚ
deriving DecidableEq, Repr

/-- The price parameters `searchArea` sets for one band (lines 308-309):
`price_min = range.min`, and `price_max` only `if (range.max < 1000)`. -/
def searchPriceParams (range : PriceRange) : SearchQueryPriceParams :=
  { price_min := range.min
  , price_max := if range.max < 1000 then some range.max else none }

/-- C3: every band produced by the default configuration (`ceiling 1,000,000`,
10 bands) has `max ≥ 1000`, so its search query omits `price_max` entirely
and sets only `price_min`, which equals the band's lower bound. -/
theorem searchArea_price_max_omitted (r : PriceRange)
    (h : r ∈ createPricePivotingRanges 0 1000000) :
    (1000 : ℚ) ≤ r.max ∧ (searchPriceParams r).price_max = none ∧
      (searchPriceParams r).price_min = r.min := by
  have hform := createPricePivotingRangesGen_eq 10 1000000 (by norm_num) (by norm_num)
  have h' : r ∈ createPricePivotingRangesGen 10 0 1000000 := h
  rw [hform, List.mem_map] at h'
  obtain ⟨i, hi, rfl⟩ := h'
  rw [List.mem_range] at hi
  have hstep : (1000000 : ℚ) / (10 : ℕ) = 100000 := by norm_num
  have hmax : (1000 : ℚ) ≤ ((i + 1 : ℕ) : ℚ) * ((1000000 : ℚ) / (10 : ℕ)) := by
    rw [hstep]
    have h1 : (1 : ℚ) ≤ ((i + 1 : ℕ) : ℚ) := by exact_mod_cast Nat.succ_le_succ (Nat.zero_le i)
    nlinarith
  refine ⟨hmax, ?_, rfl⟩
  show (if ((i + 1 : ℕ) : ℚ) * ((1000000 : ℚ) / (10 : ℕ)) < 1000 then _ else none) = none
  rw [if_neg (not_lt.mpr (le_trans (by norm_num) hmax))]

/-- C3 witness: the first default band `[0, 100000]` sets `price_min = 0` and
omits `price_max`. -/
theorem searchArea_price_max_omitted_witness :
    (1000 : ℚ) ≤ (PriceRange.mk 0 100000).max ∧
      (searchPriceParams ⟨0, 100000⟩).price_max = none ∧
      (searchPriceParams ⟨0, 100000⟩).price_min = (PriceRange.mk 0 100000).min :=
  searchArea_price_max_omitted ⟨0, 100000⟩ (by
    have hform := createPricePivotingRangesGen_eq 10 1000000 (by norm_num) (by norm_num)
    show (⟨0, 100000⟩ : PriceRange) ∈ createPricePivotingRangesGen 10 0 1000000
    rw [hform, List.mem_map]
    refine ⟨0, List.mem_range.mpr (by norm_num), ?_⟩
    show (⟨((0 : ℕ) : ℚ) * ((1000000 : ℚ) / (10 : ℕ)), ((0 + 1 : ℕ) : ℚ) * ((1000000 : ℚ) / (10 : ℕ))⟩ : PriceRange) = ⟨0, 100000⟩
    norm_num)

/-! ## Discovery state and per-item deduplication (hosts-finder.ts lines 352-366) -/

/-- One item of a search response: an optional listing id
(`item?.listing?.id`) and an optional embedded host id
(`item?.listing?.user?.id`). -/
structure SearchItem where
  listingId : Option String
  hostId : Option String
deriving DecidableEq, Repr

/-- The two global dedup sets `discoveredListingIds` / `discoveredHostIds`
(hosts-finder.ts lines 260-261), modelled as finite sets of ids. -/
structure DiscoveryState where
  discoveredListingIds : Finset String
  discoveredHostIds : Finset String
deriving DecidableEq

/-- The body of the `for (const item of allListings)` loop (lines 353-366),
threading the running `foundCount`: a fresh listing id is inserted and
counted, and only then is an embedded host id (if any and fresh) inserted;
an item with a known or missing listing id changes nothing. -/
def processItem : DiscoveryState × ℕ → SearchItem → DiscoveryState × ℕ
  | (st, foundCount), item =>
    match item.listingId with
    | none => (st, foundCount)
    | some listingId =>
      if listingId ∈ st.discoveredListingIds then (st, foundCount)
      else
        let st1 : DiscoveryState :=
          { st with discoveredListingIds := insert listingId st.discoveredListingIds }
        let foundCount1 := foundCount + 1
        match item.hostId with
        | none => (st1, foundCount1)
        | some hostId =>
          if hostId ∈ st1.discoveredHostIds then (st1, foundCount1)
          else
            ({ st1 with discoveredHostIds := insert hostId st1.discoveredHostIds },
             foundCount1)

/-- Processing all items of one task's response, starting `foundCount` at 0
(line 352). -/
def processListings (st : DiscoveryState) (items : List SearchItem) :
    DiscoveryState × ℕ :=
  items.foldl processItem (st, 0)

/-- An item whose listing id is already known (or absent) is a complete
no-op: neither set changes, the count does not change. -/
theorem processItem_noop (st : DiscoveryState) (c : ℕ) (item : SearchItem)
    (h : ∀ lid, item.listingId = some lid → lid ∈ st.discoveredListingIds) :
    processItem (st, c) item = (st, c) := by
  obtain ⟨lopt, hopt⟩ := item
  cases lopt with
  | none => rfl
  | some lid =>
    have hmem : lid ∈ st.discoveredListingIds := h lid rfl
    simp only [processItem]
    rw [if_pos hmem]

/-- A fold over items that are all already known changes nothing. -/
theorem foldl_processItem_noop (items : List SearchItem) (st : DiscoveryState) (c : ℕ)
    (h : ∀ item ∈ items, ∀ lid, item.listingId = some lid → lid ∈ st.discoveredListingIds) :
    items.foldl processItem (st, c) = (st, c) := by
  induction items with
  | nil => rfl
  | cons item rest ih =>
    rw [List.foldl_cons,
      processItem_noop st c item (fun lid hl => h item (List.mem_cons_self item rest) lid hl)]
    exact ih (fun it hit lid hl => h it (List.mem_cons_of_mem item hit) lid hl)

/-- One step only grows the two dedup sets. -/
theorem processItem_mono (p : DiscoveryState × ℕ) (item : SearchItem) :
    p.1.discoveredListingIds ⊆ (processItem p item).1.discoveredListingIds ∧
      p.1.discoveredHostIds ⊆ (processItem p item).1.discoveredHostIds := by
  obtain ⟨st, c⟩ := p
  obtain ⟨lopt, hopt⟩ := item
  cases lopt with
  | none => exact ⟨Finset.Subset.refl _, Finset.Subset.refl _⟩
  | some lid =>
    simp only [processItem]
    by_cases hmem : lid ∈ st.discoveredListingIds
    · rw [if_pos hmem]
      exact ⟨Finset.Subset.refl _, Finset.Subset.refl _⟩
    · rw [if_neg hmem]
      cases hopt with
      | none => exact ⟨Finset.subset_insert _ _, Finset.Subset.refl _⟩
      | some hid =>
        dsimp only
        split
        · exact ⟨Finset.subset_insert _ _, Finset.Subset.refl _⟩
        · exact ⟨Finset.subset_insert _ _, Finset.subset_insert _ _⟩

/-- The whole fold only grows the two dedup sets. -/
theorem foldl_processItem_mono (items : List SearchItem) (p : DiscoveryState × ℕ) :
    p.1.discoveredListingIds ⊆ (items.foldl processItem p).1.discoveredListingIds ∧
      p.1.discoveredHostIds ⊆ (items.foldl processItem p).1.discoveredHostIds := by
  induction items generalizing p with
  | nil => exact ⟨Finset.Subset.refl _, Finset.Subset.refl _⟩
  | cons item rest ih =>
    rw [List.foldl_cons]
    obtain ⟨h1, h2⟩ := processItem_mono p item
    obtain ⟨h3, h4⟩ := ih (processItem p item)
    exact ⟨h1.trans h3, h2.trans h4⟩

/-- After one step, the item's listing id is in the set. -/
theorem processItem_mem (p : DiscoveryState × ℕ) (item : SearchItem) (lid : String)
    (h : item.listingId = some lid) :
    lid ∈ (processItem p item).1.discoveredListingIds := by
  obtain ⟨st, c⟩ := p
  obtain ⟨lopt, hopt⟩ := item
  have h' : lopt = some lid := h
  subst h'
  simp only [processItem]
  by_cases hmem : lid ∈ st.discoveredListingIds
  · rwa [if_pos hmem]
  · rw [if_neg hmem]
    cases hopt with
    | none => exact Finset.mem_insert_self _ _
    | some hid =>
      dsimp only
      split
      · exact Finset.mem_insert_self _ _
      · exact Finset.mem_insert_self _ _

/-- After the fold, every listing id occurring in the items is in the set. -/
theorem foldl_processItem_mem (items : List SearchItem) (p : DiscoveryState × ℕ)
    (item : SearchItem) (hmem : item ∈ items) (lid : String)
    (h : item.listingId = some lid) :
    lid ∈ (items.foldl processItem p).1.discoveredListingIds := by
  induction items generalizing p with
  | nil => cases hmem
  | cons hd rest ih =>
    rw [List.foldl_cons]
    rcases List.mem_cons.mp hmem with rfl | htl
    · exact (foldl_processItem_mono rest (processItem p item)).1
        (processItem_mem p item lid h)
    · exact ih (processItem p hd) htl

/-- Processing an item with a fresh or known listing id always leaves the
listing set equal to `insert lid` of the old set (the host branch never
touches the listing set). -/
theorem processItem_listing_set (st : DiscoveryState) (c : ℕ) (lid : String)
    (hopt : Option String) :
    (processItem (st, c) ⟨some lid, hopt⟩).1.discoveredListingIds =
      insert lid st.discoveredListingIds := by
  simp only [processItem]
  by_cases hmem : lid ∈ st.discoveredListingIds
  · rw [if_pos hmem]
    exact (Finset.insert_eq_self.mpr hmem).symm
  · rw [if_neg hmem]
    cases hopt with
    | none => rfl
    | some hid =>
      dsimp only
      split <;> rfl

/-- C4: dedup idempotence of the global discovery sets.  Inserting the same
listing id any number of times leaves exactly one entry (`insert lid`);
an insertion of an already-present id is a no-op, not an error; and
re-processing the same search task (same response items) returns the same
state with zero newly-found listings, so the listing count never grows
beyond a single processing. -/
theorem discovery_dedup_idempotent :
    (∀ (st : DiscoveryState) (c : ℕ) (item : SearchItem) (lid : String),
      item.listingId = some lid → lid ∈ st.discoveredListingIds →
        processItem (st, c) item = (st, c)) ∧
    (∀ (st : DiscoveryState) (lid : String) (hopt : Option String) (n : ℕ),
      (processListings st (List.replicate (n + 1) ⟨some lid, hopt⟩)).1.discoveredListingIds =
        insert lid st.discoveredListingIds) ∧
    (∀ (st : DiscoveryState) (items : List SearchItem),
      processListings (processListings st items).1 items =
        ((processListings st items).1, 0)) ∧
    (∀ (st : DiscoveryState) (items : List SearchItem),
      (processListings (processListings st items).1 items).1.discoveredListingIds.card =
        (processListings st items).1.discoveredListingIds.card) := by
  have habsorb : ∀ (st : DiscoveryState) (items : List SearchItem),
      processListings (processListings st items).1 items =
        ((processListings st items).1, 0) := by
    intro st items
    exact foldl_processItem_noop items (processListings st items).1 0
      (fun item hmem lid hl => foldl_processItem_mem items (st, 0) item hmem lid hl)
  refine ⟨?_, ?_, habsorb, ?_⟩
  · intro st c item lid hl hmem
    exact processItem_noop st c item (fun lid' hl' => by
      rw [hl] at hl'
      obtain rfl := Option.some_injective _ hl'.symm
      exact hmem)
  · intro st lid hopt n
    rw [List.replicate_succ]
    show ((List.replicate n (⟨some lid, hopt⟩ : SearchItem)).foldl processItem
      (processItem (st, 0) ⟨some lid, hopt⟩)).1.discoveredListingIds = _
    have hmem : lid ∈ (processItem (st, 0) ⟨some lid, hopt⟩).1.discoveredListingIds :=
      processItem_mem (st, 0) ⟨some lid, hopt⟩ lid rfl
    rw [foldl_processItem_noop (List.replicate n ⟨some lid, hopt⟩)
      (processItem (st, 0) ⟨some lid, hopt⟩).1 (processItem (st, 0) ⟨some lid, hopt⟩).2
      (fun item hit lid' hl' => by
        rw [List.eq_of_mem_replicate hit] at hl'
        obtain rfl := Option.some_injective _ hl'.symm
        exact hmem)]
    exact processItem_listing_set st 0 lid hopt
  · intro st items
    rw [habsorb st items]

/-! ## Host records and agency classification (hosts-finder.ts lines 467-489) -/

/-- The constant `AGENCY_THRESHOLD` (hosts-finder.ts line 34). -/
def AGENCY_THRESHOLD : ℕ := 5

/-- The relevant fields of the `data.user` object of a host-profile
response. -/
structure UserRecord where
  id : String
  host_name : Option String
  first_name : Option String
  full_name : Option String
  listings_count : ℕ
  reviewee_rating : Option ℚ
  picture_url : Option String
deriving DecidableEq, Repr

/-- The final `Host` record (hosts-finder.ts lines 77-85). -/
structure Host where
  id : String
  name : String
  listingCount : ℕ
  isAgency : Bool
  rating : Option ℚ
  pictureUrl : Option String
  profileUrl : String
deriving DecidableEq, Repr

/-- JavaScript `a || b` on optional strings: the empty string is falsy. -/
def jsStringOr (a b : Option String) : Option String :=
  match a with
  | some s => if s = ("") then b else some s
  | none => b

/-- Building the `Host` object from a profile response (lines 469-477):
`isAgency := listings_count >= AGENCY_THRESHOLD`, name falls back through
`host_name || first_name || full_name || 'Unknown'`, rating and picture are
`|| null`. -/
def mkHost (user : UserRecord) : Host :=
  { id := user.id
  , name := (jsStringOr (jsStringOr (jsStringOr user.host_name user.first_name)
      user.full_name) (some ("Unknown"))).getD ("Unknown")
  , listingCount := user.listings_count
  , isAgency := decide (AGENCY_THRESHOLD ≤ user.listings_count)
  , rating := match user.reviewee_rating with
      | some r => if r = 0 then none else some r
      | none => none
  , pictureUrl := jsStringOr user.picture_url none
  , profileUrl := ("https://www.airbnb.com/users/show/") ++ user.id }

/-- C5: for every host record built by host resolution, `isAgency` is true
iff the host's `listingCount` is at least the agency threshold 5; at the
boundary `listingCount = 5` it is true. -/
theorem isAgency_iff_threshold :
    (∀ user : UserRecord,
      (mkHost user).isAgency = true ↔ AGENCY_THRESHOLD ≤ (mkHost user).listingCount) ∧
    (∀ user : UserRecord,
      user.listings_count = AGENCY_THRESHOLD → (mkHost user).isAgency = true) := by
  constructor
  · intro user
    show decide (AGENCY_THRESHOLD ≤ user.listings_count) = true ↔ _
    exact decide_eq_true_iff
  · intro user h
    show decide (AGENCY_THRESHOLD ≤ user.listings_count) = true
    rw [h]
    rfl

/-! ## Host resolution loop with credential recovery (hosts-finder.ts lines 437-510) -/

/-- What `makeRequest` + `JSON.parse` yield for one host: an error after the
transport's retries, or a parsed body whose `user` field may be absent. -/
inductive FetchOutcome where
  | failure : FetchOutcome
  | success : Option UserRecord → FetchOutcome
deriving DecidableEq, Repr

/-- One iteration's environment: the fetch outcome for this host id and, in
case a credential refresh is attempted, whether `getApiKey` succeeds and what
key it returns. -/
structure HostFetchEvent where
  outcome : FetchOutcome
  refreshOk : Bool
  newKey : String
deriving DecidableEq, Repr

/-- The mutable state of Stage 3 (lines 437-440): collected hosts, the
consecutive-error counter, how many refreshes have been requested, and the
current API key. -/
structure ResolverState where
  finalHosts : List Host
  consecutiveHostErrors : ℕ
  refreshRequests : ℕ
  currentHostApiKey : String
deriving DecidableEq, Repr

/-- One iteration of the `for (const hostId of hostIds)` loop (lines
442-510): on success, push a Host when a `user` object is present and reset
the counter; on failure, bump the counter and, once it reaches 3, request a
fresh key — the counter resets only if that request succeeds. -/
def hostStep (st : ResolverState) (ev : HostFetchEvent) : ResolverState :=
  match ev.outcome with
  | .success user =>
    let st1 :=
      match user with
      | some u => { st with finalHosts := st.finalHosts ++ [mkHost u] }
      | none => st
    { st1 with consecutiveHostErrors := 0 }
  | .failure =>
    let st1 := { st with consecutiveHostErrors := st.consecutiveHostErrors + 1 }
    if 3 ≤ st1.consecutiveHostErrors then
      let st2 := { st1 with refreshRequests := st1.refreshRequests + 1 }
      if ev.refreshOk then
        { st2 with currentHostApiKey := ev.newKey, consecutiveHostErrors := 0 }
      else st2
    else st1

/-- Stage 3 over the whole host id list. -/
def resolveHosts (st : ResolverState) (evs : List HostFetchEvent) : ResolverState :=
  evs.foldl hostStep st

/-- The retry loop of `makeRequest` (lines 96-134) with `maxRetries`
attempts: the first successful attempt's value, an error if all attempts up
to the budget fail. -/
def makeRequestResult {α : Type} (maxRetries : ℕ) (attempts : List (Option α)) : Option α :=
  (attempts.take maxRetries).findSome? id

/-- A host-profile fetch as the resolver sees it: `makeRequest` with its
default budget of 5 attempts, then the parsed optional `user`. -/
def hostFetchOutcome (attempts : List (Option (Option UserRecord))) : FetchOutcome :=
  match makeRequestResult 5 attempts with
  | some user => .success user
  | none => .failure

/-- A concrete host profile used for concrete runs. -/
def sampleUser : UserRecord :=
  ⟨"H1", some ("Alice Rentals"), none, none, 6, none, none⟩

/-- C6 counterexample: a host whose profile fetch fails 3 times consecutively
and then succeeds recovers inside the transport's retry budget (5 attempts),
so the resolver sees a single success: its Host record is returned but ZERO
credential refreshes occur — not exactly one as the claim states. -/
theorem hostResolver_no_refresh_on_transport_recovery :
    (resolveHosts ⟨[], 0, 0, ("key0")⟩
        [⟨hostFetchOutcome [none, none, none, some (some sampleUser)], true, ("key1")⟩]).refreshRequests = 0 ∧
    (0 : ℕ) ≠ 1 ∧
    (resolveHosts ⟨[], 0, 0, ("key0")⟩
        [⟨hostFetchOutcome [none, none, none, some (some sampleUser)], true, ("key1")⟩]).finalHosts = [mkHost sampleUser] :=
  ⟨rfl, by norm_num, rfl⟩

/-- How one resolver iteration changes `finalHosts`: it appends the host
record exactly when the fetch succeeded with a `user` object present. -/
theorem hostStep_finalHosts (st : ResolverState) (ev : HostFetchEvent) :
    (hostStep st ev).finalHosts = st.finalHosts ++
      (match ev.outcome with
       | FetchOutcome.success (some u) => [mkHost u]
       | FetchOutcome.success none => []
       | FetchOutcome.failure => []) := by
  obtain ⟨outcome, rOk, nk⟩ := ev
  cases outcome with
  | success u =>
    cases u with
    | none => simp [hostStep]
    | some v => simp [hostStep]
  | failure =>
    simp only [hostStep]
    split
    · split <;> simp
    · simp

/-- C6 (amended): the consecutive-failure counter counts hosts whose fetch
fails after the transport's 5 retries; it resets to zero on any successful
fetch; a failure that brings it to 3 requests exactly one credential refresh,
and the counter resets only if that refresh succeeds; a host whose fetch
fails 3 times then succeeds within the transport budget surfaces as one
success (so no refresh); and the resolver always finishes the host id list,
every successfully fetched profile ending up in `finalHosts` regardless of
interleaved failures or credential state. -/
theorem hostResolver_failure_counter :
    (∀ (st : ResolverState) (ev : HostFetchEvent) (u : Option UserRecord),
      ev.outcome = FetchOutcome.success u → (hostStep st ev).consecutiveHostErrors = 0) ∧
    (∀ (st : ResolverState) (ev : HostFetchEvent),
      ev.outcome = FetchOutcome.failure → st.consecutiveHostErrors + 1 < 3 →
        (hostStep st ev).consecutiveHostErrors = st.consecutiveHostErrors + 1 ∧
        (hostStep st ev).refreshRequests = st.refreshRequests) ∧
    (∀ (st : ResolverState) (ev : HostFetchEvent),
      ev.outcome = FetchOutcome.failure → 3 ≤ st.consecutiveHostErrors + 1 →
        (hostStep st ev).refreshRequests = st.refreshRequests + 1 ∧
        (ev.refreshOk = true → (hostStep st ev).consecutiveHostErrors = 0) ∧
        (ev.refreshOk = false →
          (hostStep st ev).consecutiveHostErrors = st.consecutiveHostErrors + 1)) ∧
    (∀ (st : ResolverState) (evs : List HostFetchEvent),
      (resolveHosts st evs).finalHosts = st.finalHosts ++
        evs.filterMap (fun ev =>
          match ev.outcome with
          | FetchOutcome.success (some u) => some (mkHost u)
          | FetchOutcome.success none => none
          | FetchOutcome.failure => none)) ∧
    (∀ u : Option UserRecord,
      hostFetchOutcome [none, none, none, some u] = FetchOutcome.success u) := by
  refine ⟨?_, ?_, ?_, ?_, ?_⟩
  · intro st ev u h
    obtain ⟨outcome, rOk, nk⟩ := ev
    cases h
    rfl
  · intro st ev h hlt
    obtain ⟨outcome, rOk, nk⟩ := ev
    cases h
    simp only [hostStep]
    rw [if_neg (by omega)]
    exact ⟨rfl, rfl⟩
  · intro st ev h hge
    obtain ⟨outcome, rOk, nk⟩ := ev
    cases h
    simp only [hostStep]
    rw [if_pos (by omega)]
    cases rOk with
    | true =>
      refine ⟨rfl, fun _ => rfl, fun hf => ?_⟩
      cases hf
    | false =>
      refine ⟨rfl, fun ht => ?_, fun _ => rfl⟩
      cases ht
  · intro st evs
    induction evs generalizing st with
    | nil => simp [resolveHosts]
    | cons ev rest ih =>
      show (resolveHosts (hostStep st ev) rest).finalHosts = _
      rw [ih (hostStep st ev), hostStep_finalHosts st ev, List.filterMap_cons]
      cases hout : ev.outcome with
      | failure => simp
      | success u =>
        cases u with
        | none => simp
        | some v => simp [List.append_assoc]
  · intro u
    rfl

/-! ## One (cell, band) search task (hosts-finder.ts lines 279-412) -/

/-- One sub-area object as the code builds it on high density (lines
377-382): center coordinates and a radius. -/
structure SubArea where
  center : ℚ × ℚ
  radius : ℚ
deriving DecidableEq, Repr

/-- The four sub-areas computed inside the high-density branch (lines
376-382): diagonal offsets by half the bbox deltas, at half the radius.
(The code writes these centers as `[lat ± latDelta/2, lng ± lngDelta/2]`.) -/
def subAreasComputed (lat lng latDelta lngDelta radius : ℚ) : List SubArea :=
  let subRadius := radius / 2
  [ ⟨(lat + latDelta / 2, lng + lngDelta / 2), subRadius⟩
  , ⟨(lat + latDelta / 2, lng - lngDelta / 2), subRadius⟩
  , ⟨(lat - latDelta / 2, lng + lngDelta / 2), subRadius⟩
  , ⟨(lat - latDelta / 2, lng - lngDelta / 2), subRadius⟩ ]

/-- The observable result of processing one (cell, band) task's listings
(lines 352-400): the updated dedup state, the newly-found count, whether the
high-density branch (line 372: `foundCount > 20 && depth < 2 && radius > 2`)
ran, whether the cap branch (line 389: `foundCount >= 40`) ran, and the tasks
actually added to the search queue — none: both branches only `console.log`,
no child cell and no split band is ever enqueued. -/
structure SearchTaskResult where
  state : DiscoveryState
  foundCount : ℕ
  highDensityLogged : Bool
  capHitLogged : Bool
  enqueuedChildCells : List SubArea
  enqueuedSplitBands : List PriceRange
deriving DecidableEq

/-- Processing one task at subdivision `depth` and cell `radius` (km) over
the response `items`. -/
def runSearchTask (st : DiscoveryState) (depth : ℕ) (radius : ℚ)
    (items : List SearchItem) : SearchTaskResult :=
  let p := processListings st items
  { state := p.1
  , foundCount := p.2
  , highDensityLogged := decide (20 < p.2) && decide (depth < 2) && decide ((2 : ℚ) < radius)
  , capHitLogged := decide (40 ≤ p.2)
  , enqueuedChildCells := []
  , enqueuedSplitBands := [] }

/-- A response of `n` items with fresh, pairwise distinct listing ids. -/
def freshItems (n : ℕ) : List SearchItem :=
  (List.range n).map (fun i => ⟨some (toString i), none⟩)

/-- C1 code evaluation: a task returning 25 fresh listings at depth 0 and
radius 5 km trips the high-density branch, and the code still enqueues no
child task whatsoever — it only computes and logs the four half-radius
sub-areas; a task returning exactly 20 fresh listings does not even trip the
branch (the code tests `foundCount > 20`, strictly). -/
theorem densification_only_logged :
    (runSearchTask ⟨∅, ∅⟩ 0 5 (freshItems 25)).foundCount = 25 ∧
    (runSearchTask ⟨∅, ∅⟩ 0 5 (freshItems 25)).highDensityLogged = true ∧
    (runSearchTask ⟨∅, ∅⟩ 0 5 (freshItems 25)).enqueuedChildCells = [] ∧
    (runSearchTask ⟨∅, ∅⟩ 0 5 (freshItems 25)).enqueuedSplitBands = [] ∧
    (subAreasComputed 54 18 (5 / 111) (5 / 100) 5).length = 4 ∧
    (subAreasComputed 54 18 (5 / 111) (5 / 100) 5).map SubArea.radius =
      [5 / 2, 5 / 2, 5 / 2, 5 / 2] ∧
    (runSearchTask ⟨∅, ∅⟩ 0 5 (freshItems 20)).highDensityLogged = false := by
  refine ⟨by decide, by decide, rfl, rfl, rfl, by simp [subAreasComputed], by decide⟩

/-- C7 code evaluation: a task whose newly-discovered count reaches the
result cap of 40 trips the cap branch, yet the code issues no further query:
no halved price band (and no child cell) is enqueued, only a log line. -/
theorem price_band_split_only_logged :
    (runSearchTask ⟨∅, ∅⟩ 0 5 (freshItems 40)).foundCount = 40 ∧
    (runSearchTask ⟨∅, ∅⟩ 0 5 (freshItems 40)).capHitLogged = true ∧
    (runSearchTask ⟨∅, ∅⟩ 0 5 (freshItems 40)).enqueuedSplitBands = [] ∧
    (runSearchTask ⟨∅, ∅⟩ 0 5 (freshItems 40)).enqueuedChildCells = [] := by
  refine ⟨by decide, by decide, rfl, rfl⟩

/-! ## Failure of a single task (hosts-finder.ts lines 313, 407-409) -/

/-- What one (cell, band) task contributes: a failed request (the `catch`
arm, which only logs "Skipping area due to error") leaves the state as it
was; a successful response's items are folded into the dedup sets. -/
def applyTaskOutcome (st : DiscoveryState) (t : Except Unit (List SearchItem)) :
    DiscoveryState :=
  match t with
  | .error _ => st
  | .ok items => (processListings st items).1

/-- The discovery loop over a sequence of task outcomes (lines 282, 415-422):
tasks are processed in order, failures skipped. -/
def runTasks (st : DiscoveryState) (ts : List (Except Unit (List SearchItem))) :
    DiscoveryState :=
  ts.foldl applyTaskOutcome st

/-- C8: a task whose search request fails after transport retries is skipped
— the run over `pre ++ [failure] ++ post` equals the run over `pre ++ post`,
so the remaining tasks are still processed; the dedup sets only ever grow, so
in particular every id discovered before the failure is still present at the
end. -/
theorem failed_task_skipped :
    (∀ (st : DiscoveryState) (pre post : List (Except Unit (List SearchItem))),
      runTasks st (pre ++ Except.error () :: post) = runTasks st (pre ++ post)) ∧
    (∀ (st : DiscoveryState) (ts : List (Except Unit (List SearchItem))),
      st.discoveredListingIds ⊆ (runTasks st ts).discoveredListingIds ∧
      st.discoveredHostIds ⊆ (runTasks st ts).discoveredHostIds) ∧
    (∀ (st : DiscoveryState) (pre post : List (Except Unit (List SearchItem))),
      (runTasks st pre).discoveredListingIds ⊆
        (runTasks st (pre ++ Except.error () :: post)).discoveredListingIds ∧
      (runTasks st pre).discoveredHostIds ⊆
        (runTasks st (pre ++ Except.error () :: post)).discoveredHostIds) := by
  have hmono : ∀ (st : DiscoveryState) (ts : List (Except Unit (List SearchItem))),
      st.discoveredListingIds ⊆ (runTasks st ts).discoveredListingIds ∧
      st.discoveredHostIds ⊆ (runTasks st ts).discoveredHostIds := by
    intro st ts
    induction ts generalizing st with
    | nil => exact ⟨Finset.Subset.refl _, Finset.Subset.refl _⟩
    | cons t rest ih =>
      show st.discoveredListingIds ⊆ (runTasks (applyTaskOutcome st t) rest).discoveredListingIds ∧ _
      obtain ⟨ih1, ih2⟩ := ih (applyTaskOutcome st t)
      have hstep : st.discoveredListingIds ⊆ (applyTaskOutcome st t).discoveredListingIds ∧
          st.discoveredHostIds ⊆ (applyTaskOutcome st t).discoveredHostIds := by
        cases t with
        | error e => exact ⟨Finset.Subset.refl _, Finset.Subset.refl _⟩
        | ok items => exact foldl_processItem_mono items (st, 0)
      exact ⟨hstep.1.trans ih1, hstep.2.trans ih2⟩
  have hskip : ∀ (st : DiscoveryState) (pre post : List (Except Unit (List SearchItem))),
      runTasks st (pre ++ Except.error () :: post) = runTasks st (pre ++ post) := by
    intro st pre post
    unfold runTasks
    rw [List.foldl_append, List.foldl_append, List.foldl_cons]
    rfl
  refine ⟨hskip, hmono, ?_⟩
  intro st pre post
  rw [hskip st pre post]
  unfold runTasks
  rw [List.foldl_append]
  exact hmono _ post

/-! ## Pagination of one search query (hosts-finder.ts lines 318-350) -/

/-- One page of the search response: the extracted `listings` array and the
`pagination_metadata.has_next_page` flag. -/
structure PageResponse where
  listings : List SearchItem
  has_next_page : Bool
deriving DecidableEq, Repr

/-- Line 344: `hasNextPage = paginationMetadata?.has_next_page &&
listings.length > 0`. -/
def pageContinue (r : PageResponse) : Bool :=
  r.has_next_page && !r.listings.isEmpty

/-- The `while (hasNextPage)` pagination loop (lines 323-350), with the
responses given by `oracle` as a function of the requested `items_offset`,
and an explicit fuel bound: `none` means the loop has not exited within
`fuel` iterations.  The offset advances by the page size `limit = 50`. -/
def paginate (oracle : ℕ → PageResponse) : ℕ → ℕ → List SearchItem →
    Option (List SearchItem)
  | 0, _, _ => none
  | fuel + 1, offset, acc =>
    let r := oracle offset
    let acc1 := acc ++ r.listings
    if pageContinue r then paginate oracle fuel (offset + 50) acc1
    else some acc1

/-- The pagination loop terminates on `oracle`: some finite fuel suffices. -/
def paginationTerminates (oracle : ℕ → PageResponse) : Prop :=
  ∃ fuel, (paginate oracle fuel 0 []).isSome

/-- If every visited page keeps signalling more, no amount of fuel makes the
loop exit. -/
theorem paginate_none_of_always (oracle : ℕ → PageResponse)
    (h : ∀ k, pageContinue (oracle (50 * k)) = true) :
    ∀ fuel k acc, paginate oracle fuel (50 * k) acc = none := by
  intro fuel
  induction fuel with
  | zero => intro k acc; rfl
  | succ n ih =>
    intro k acc
    show (if pageContinue (oracle (50 * k)) then _ else _) = _
    rw [if_pos (h k)]
    have hoff : 50 * k + 50 = 50 * (k + 1) := by ring
    rw [hoff]
    exact ih (k + 1) _

/-- If the page at offset `offset + 50·k` stops the loop, fuel `k + 1`
suffices from `offset`. -/
theorem paginate_some_of_stop (oracle : ℕ → PageResponse) :
    ∀ (k offset : ℕ) (acc : List SearchItem),
      pageContinue (oracle (offset + 50 * k)) = false →
        (paginate oracle (k + 1) offset acc).isSome = true := by
  intro k
  induction k with
  | zero =>
    intro offset acc h
    rw [Nat.mul_zero, Nat.add_zero] at h
    simp [paginate, h]
  | succ n ih =>
    intro offset acc h
    simp only [paginate]
    by_cases hc : pageContinue (oracle offset) = true
    · rw [if_pos hc]
      have hoff : offset + 50 * (n + 1) = (offset + 50) + 50 * n := by ring
      rw [hoff] at h
      exact ih (offset + 50) _ h
    · rw [if_neg hc]
      rfl

/-- C9 (amended): per-task pagination terminates exactly when some visited
page (offset `50·k`) signals no next page or carries no listings; and the
task queue stays the finite initial grid×bands list — the code enqueues no
cell subdivision and no band split during the run. -/
theorem pagination_terminates_iff :
    (∀ oracle : ℕ → PageResponse,
      paginationTerminates oracle ↔ ∃ k, pageContinue (oracle (50 * k)) = false) ∧
    (∀ (st : DiscoveryState) (depth : ℕ) (radius : ℚ) (items : List SearchItem),
      (runSearchTask st depth radius items).enqueuedChildCells = [] ∧
      (runSearchTask st depth radius items).enqueuedSplitBands = []) := by
  constructor
  · intro oracle
    constructor
    · rintro ⟨fuel, hsome⟩
      by_contra hno
      push_neg at hno
      have hall : ∀ k, pageContinue (oracle (50 * k)) = true := by
        intro k
        cases hb : pageContinue (oracle (50 * k)) with
        | false => exact absurd hb (hno k)
        | true => rfl
      have hnone := paginate_none_of_always oracle hall fuel 0 []
      rw [Nat.mul_zero] at hnone
      rw [hnone] at hsome
      cases hsome
    · rintro ⟨k, hk⟩
      refine ⟨k + 1, ?_⟩
      exact paginate_some_of_stop oracle k 0 [] (by rw [Nat.zero_add]; exact hk)
  · intro st depth radius items
    exact ⟨rfl, rfl⟩

/-- C9 witness: a collaborator whose first page already signals no next page
terminates, by the amended criterion at `k = 0`. -/
theorem pagination_terminates_iff_witness :
    paginationTerminates (fun _ => ⟨[], false⟩) :=
  (pagination_terminates_iff.1 (fun _ => ⟨[], false⟩)).mpr ⟨0, rfl⟩

/-- A collaborator that always returns one listing with
`has_next_page = true`. -/
def alwaysMore : ℕ → PageResponse :=
  fun _ => ⟨[⟨some ("L1"), none⟩], true⟩

/-- C9 counterexample: for the collaborator that always returns one listing
and `has_next_page = true`, the loop exits under no fuel bound — the
pagination loop does NOT terminate for every sequence of collaborator
responses. -/
theorem pagination_not_total :
    (¬ paginationTerminates alwaysMore) ∧ paginate alwaysMore 100 0 [] = none := by
  have hall : ∀ k, pageContinue (alwaysMore (50 * k)) = true := by
    intro k; rfl
  constructor
  · rintro ⟨fuel, hsome⟩
    have hnone := paginate_none_of_always alwaysMore hall fuel 0 []
    rw [Nat.mul_zero] at hnone
    rw [hnone] at hsome
    cases hsome
  · have hnone := paginate_none_of_always alwaysMore hall 100 0 []
    rw [Nat.mul_zero] at hnone
    exact hnone

/-! ## Geographic resolution (hosts-finder.ts lines 160-179) -/

/-- The `type` of a candidate's `geojson` object. -/
inductive GeoJsonType where
  | Polygon : GeoJsonType
  | MultiPolygon : GeoJsonType
  | Point : GeoJsonType
  | LineString : GeoJsonType
deriving DecidableEq, Repr

/-- A GeoJSON geometry: its type tag and (abstracted) coordinates. -/
structure GeoJson where
  gtype : GeoJsonType
  coordinates : List (List (ℚ × ℚ))
deriving DecidableEq, Repr

/-- One Nominatim search result: an optional `geojson` and a display name. -/
structure NominatimResult where
  geojson : Option GeoJson
  display_name : String
deriving DecidableEq, Repr

/-- Line 172's predicate: `r.geojson && (r.geojson.type === 'Polygon' ||
r.geojson.type === 'MultiPolygon')`. -/
def isValidPolygon (r : NominatimResult) : Bool :=
  match r.geojson with
  | some g =>
    decide (g.gtype = GeoJsonType.Polygon) || decide (g.gtype = GeoJsonType.MultiPolygon)
  | none => false

/-- The source's `getGeoPolygon` (lines 160-179): the first candidate with polygon
geometry wins and its `geojson` is returned; with no such candidate the
function throws (modelled as `Except.error` with the thrown message). -/
def getGeoPolygon (locationQuery : String) (results : List NominatimResult) :
    Except String GeoJson :=
  match results.find? isValidPolygon with
  | some validPolygon =>
    match validPolygon.geojson with
    | some g => Except.ok g
    | none =>
      Except.error (("Could not find a valid geographic polygon for ") ++ locationQuery)
  | none =>
    Except.error (("Could not find a valid geographic polygon for ") ++ locationQuery)

/-- How `main` uses the geocoder (lines 255-258, 542-545): the rest of the
run only happens on a successful polygon; a geocoding error propagates and
aborts the run. -/
def mainPipeline {α : Type} (locationQuery : String) (results : List NominatimResult)
    (rest : GeoJson → α) : Except String α :=
  match getGeoPolygon locationQuery results with
  | Except.ok g => Except.ok (rest g)
  | Except.error e => Except.error e

/-- C10: geographic resolution returns the polygon of the first candidate
whose geometry is a `Polygon` or `MultiPolygon`, skipping any earlier
candidates without polygon geometry; and when no candidate carries polygon
geometry it fails with the location-not-found error, which aborts the whole
run. -/
theorem getGeoPolygon_first_valid :
    (∀ (q : String) (pre post : List NominatimResult) (c : NominatimResult) (g : GeoJson),
      (∀ d ∈ pre, isValidPolygon d = false) → c.geojson = some g →
      (g.gtype = GeoJsonType.Polygon ∨ g.gtype = GeoJsonType.MultiPolygon) →
        getGeoPolygon q (pre ++ c :: post) = Except.ok g) ∧
    (∀ (q : String) (results : List NominatimResult),
      (∀ r ∈ results, isValidPolygon r = false) →
        getGeoPolygon q results =
          Except.error (("Could not find a valid geographic polygon for ") ++ q) ∧
        ∀ (rest : GeoJson → DiscoveryState),
          mainPipeline q results rest =
            Except.error (("Could not find a valid geographic polygon for ") ++ q)) := by
  constructor
  · intro q pre post c g hpre hcg htype
    have hvalid : isValidPolygon c = true := by
      unfold isValidPolygon
      rw [hcg]
      rcases htype with h | h <;> simp [h]
    have hfind : (pre ++ c :: post).find? isValidPolygon = some c := by
      induction pre with
      | nil => simp [List.find?_cons_of_pos, hvalid]
      | cons d rest ih =>
        rw [List.cons_append, List.find?_cons_of_neg]
        · exact ih (fun x hx => hpre x (List.mem_cons_of_mem d hx))
        · rw [hpre d (List.mem_cons_self d rest)]
          exact Bool.false_ne_true
    unfold getGeoPolygon
    rw [hfind]
    dsimp only
    rw [hcg]
  · intro q results hnone
    have hfind : results.find? isValidPolygon = none := by
      rw [List.find?_eq_none]
      intro r hr
      rw [hnone r hr]
      exact Bool.false_ne_true
    have herr : getGeoPolygon q results =
        Except.error (("Could not find a valid geographic polygon for ") ++ q) := by
      unfold getGeoPolygon
      rw [hfind]
    refine ⟨herr, fun rest => ?_⟩
    unfold mainPipeline
    rw [herr]

/-- C10 witness: with a geometry-less candidate and a point-only candidate
before the first polygon-bearing one, resolution returns that polygon. -/
theorem getGeoPolygon_first_valid_witness :
    getGeoPolygon ("Gdansk, Poland")
        ([⟨none, ("no geometry")⟩, ⟨some ⟨GeoJsonType.Point, []⟩, ("point only")⟩] ++
          ⟨some ⟨GeoJsonType.Polygon, []⟩, ("Gdansk")⟩ ::
            [⟨some ⟨GeoJsonType.MultiPolygon, []⟩, ("later")⟩]) =
      Except.ok ⟨GeoJsonType.Polygon, []⟩ :=
  getGeoPolygon_first_valid.1 ("Gdansk, Poland")
    [⟨none, ("no geometry")⟩, ⟨some ⟨GeoJsonType.Point, []⟩, ("point only")⟩]
    [⟨some ⟨GeoJsonType.MultiPolygon, []⟩, ("later")⟩]
    ⟨some ⟨GeoJsonType.Polygon, []⟩, ("Gdansk")⟩ ⟨GeoJsonType.Polygon, []⟩
    (by intro d hd; fin_cases hd <;> rfl) rfl (Or.inl rfl)

end HostsFinder
